import Mathlib

/-!
Shallow embedding of `hls4ml/model/optimizer/passes/qkeras.py`: the three
optimizer passes `OutputRoundingSaturationMode`, `QKerasFactorizeAlpha` and
`FuseConsecutiveBatchNormalization`, together with the slice of the external
precision-type facade and graph-mutation service they use.  Parts of the
repository that are not under the provided sources (the precision types of
`hls_model.py`, node lookup/insert/remove) are modelled from the spec and
marked as such in their doc comments.
-/

/-- Weight tensors are modelled as flat lists of rationals; the passes use
only element-wise products and sums on them. -/
abbrev Tensor := List ℚ

/-- `beginsWith n h` : the character list `n` is a leading segment of `h`
(the inner loop of the Python substring test). -/
def beginsWith : List Char → List Char → Bool
  | [], _ => true
  | _ :: _, [] => false
  | a :: as, b :: bs => a == b && beginsWith as bs

/-- `containsSub h n` models the Python substring test `n in h` on the
character lists of the two strings. -/
def containsSub : List Char → List Char → Bool
  | [], n => beginsWith n []
  | h :: t, n => beginsWith n (h :: t) || containsSub t n

/-- Python's `needle in t` for a haystack already given as characters. -/
def pycontains (t : List Char) (needle : String) : Bool :=
  containsSub t needle.data

/-- Modelled from the spec: the external precision type system
(`IntegerPrecisionType` / `FixedPrecisionType` of `hls_model.py`, not under
the provided sources) — integer-kind (width, signed) or fixed-point-kind
(width, integer bits, signed), each optionally carrying a rounding mode, a
saturation mode and a saturation bit count; or an opaque string fallback. -/
inductive Precision where
  | int (width : Nat) (signed : Bool) (rounding saturation : Option String)
      (satBits : Option Nat)
  | fixed (width integer : Nat) (signed : Bool) (rounding saturation : Option String)
      (satBits : Option Nat)
  | str (s : String)
deriving DecidableEq

/-- The optional `,rounding,saturation,satbits` part of a precision type's
string form. -/
def modeSuffix (rounding saturation : Option String) (satBits : Option Nat) : List Char :=
  (match rounding with | some r => ',' :: r.data | none => []) ++
  (match saturation with | some m => ',' :: m.data | none => []) ++
  (match satBits with | some b => ',' :: Nat.toDigits 10 b | none => [])

/-- Modelled from the spec: `str(precision)` of the external precision type
facade — a bracketed suffix `<width, intbits, rounding, saturation, satbits>`
after the type keyword; a string-fallback precision is its own string form. -/
def strPrecData : Precision → List Char
  | .int w sgn r m b =>
      ((if sgn then "ap_int<" else "ap_uint<").data ++ Nat.toDigits 10 w) ++
        modeSuffix r m b ++ ['>']
  | .fixed w i sgn r m b =>
      ((if sgn then "ap_fixed<" else "ap_ufixed<").data ++ Nat.toDigits 10 w ++
        (',' :: Nat.toDigits 10 i)) ++ modeSuffix r m b ++ ['>']
  | .str s => s.data

/-- A QKeras quantizer object as stored in the node attribute map
(`weight_quantizer` / `bias_quantizer`): only its optional `alpha` attribute
is read or written by the passes. -/
structure AQuant where
  alpha : Option ℚ

/-- The result of `get_config()` on a QKeras quantizer: the passes only read
and overwrite its `alpha` entry. -/
structure QConfig where
  alpha : ℚ

/-- A QKeras quantizer callable (`quantizer_fn`): applying it to a tensor
yields the quantized tensor, and its `scale` attribute after that call is
given by `scaleAfter`; `cfg` is its reconstructable configuration. -/
structure QKQuant where
  call : Tensor → Tensor
  scaleAfter : Tensor → Tensor
  cfg : QConfig

/-- The hls4ml quantizer wrapper stored on a weight entry: it carries the
QKeras `quantizer_fn` and is itself callable (`apply`). -/
structure HQuant where
  quantizer_fn : QKQuant
  apply : Tensor → Tensor

/-- A weight entry: tensor data, the pre-quantization tensor, and an optional
quantizer wrapper. -/
structure WeightEntry where
  data : Tensor
  data_unquantized : Tensor
  quantizer : Option HQuant

/-- The node attribute map, restricted to the keys the passes touch. -/
structure Attrs where
  weight_quantizer : Option AQuant
  bias_quantizer : Option AQuant
  accum_t : Option Precision
  n_in : Option Nat
  n_out : Option Nat
  n_filt : Option Int
  reuse_factor : Option Nat

/-- A layer node of the model graph: class name (`kind`), unique name, input
and output tensor names, the output variable's shape and numeric precision,
the weight-role map and the attribute map. -/
structure Node where
  kind : String
  name : String
  inputs : List String
  outputs : List String
  shape : List Nat
  precision : Precision
  weights : String → Option WeightEntry
  attrs : Attrs

/-- The model graph, as the list of its nodes. -/
abbrev Graph := List Node

/-- Update one role of a weight-role map. -/
def setW (ws : String → Option WeightEntry) (k : String) (w : WeightEntry) :
    String → Option WeightEntry :=
  fun j => if j = k then some w else ws j

/-- Class-level configuration of `OutputRoundingSaturationMode`: target layer
list, optional rounding mode, saturation mode and saturation bit count. -/
structure ORSMConfig where
  layers : List String
  rounding_mode : Option String
  saturation_mode : Option String
  saturation_bits : Option Nat

/-- `OutputRoundingSaturationMode.match`: the node's class name or name is in
`layers`, and a configured rounding or saturation mode is not already a
substring of the output precision's string form. -/
def orsm_match (cfg : ORSMConfig) (node : Node) : Bool :=
  let layer_match := decide (node.kind ∈ cfg.layers) || decide (node.name ∈ cfg.layers)
  let t := strPrecData node.precision
  let rs1 : Bool :=
    match cfg.rounding_mode with
    | some r => false || !(pycontains t r)
    | none => false
  let rs2 : Bool :=
    match cfg.saturation_mode with
    | some m => rs1 || !(pycontains t m)
    | none => rs1
  layer_match && rs2

/-- The `mode` string built by `precision_string_modify`: the configured
modes, each preceded by a comma, followed by the closing bracket. -/
def modeString (cfg : ORSMConfig) : List Char :=
  modeSuffix cfg.rounding_mode cfg.saturation_mode cfg.saturation_bits ++ ['>']

/-- Python's `pstr.replace(chr62, mode)` for a one-character pattern: every
occurrence of the closing bracket is replaced by `mode`. -/
def replaceGt (mode : List Char) : List Char → List Char
  | [] => []
  | c :: t => if c = '>' then mode ++ replaceGt mode t else c :: replaceGt mode t

/-- `OutputRoundingSaturationMode.precision_string_modify`. -/
def precision_string_modify (cfg : ORSMConfig) (p : String) : String :=
  ⟨replaceGt (modeString cfg) p.data⟩

/-- Replace the node's output precision and, when an `accum_t` attribute is
present, overwrite it with the same new precision (lines 46–48). -/
def setOutputPrec (node : Node) (t : Precision) : Node :=
  { node with
    precision := t,
    attrs := { node.attrs with
      accum_t := if node.attrs.accum_t.isSome then some t else none } }

/-- `OutputRoundingSaturationMode.transform`.  In the integer branch the
source binds `newprecision` (line 41) but line 46 reads the never-assigned
local `newtype`, so that branch raises a `NameError` before any mutation. -/
def orsm_transform (cfg : ORSMConfig) (node : Node) : Except String (Node × Bool) :=
  match node.precision with
  | .int _ _ _ _ _ =>
      Except.error "NameError: newtype is not defined"
  | .fixed w i sgn _ _ _ =>
      let newtype := Precision.fixed w i sgn cfg.rounding_mode cfg.saturation_mode
        cfg.saturation_bits
      Except.ok (setOutputPrec node newtype, false)
  | .str p =>
      let newtype := Precision.str (precision_string_modify cfg p)
      Except.ok (setOutputPrec node newtype, false)

/-- Attribute map with every optional key absent. -/
def emptyAttrs : Attrs :=
  { weight_quantizer := none, bias_quantizer := none, accum_t := none,
    n_in := none, n_out := none, n_filt := none, reuse_factor := none }

/-- Weight-role map with no roles present. -/
def noW : String → Option WeightEntry := fun _ => none

/-- A sample Dense node with a plain fixed-point output precision. -/
def nodeDenseFixed : Node :=
  { kind := "Dense", name := "d1", inputs := ["x"], outputs := ["d1_out"],
    shape := [4], precision := .fixed 16 6 true none none none,
    weights := noW, attrs := emptyAttrs }

/-- The same node with a string precision that has no closing bracket. -/
def nodeStrFloat : Node :=
  { nodeDenseFixed with precision := .str "float" }

/-- A configuration targeting Dense layers with only a rounding mode set. -/
def cfgRnd : ORSMConfig :=
  { layers := ["Dense"], rounding_mode := some "AP_RND_CONV",
    saturation_mode := none, saturation_bits := none }

/-- The node the rounding/saturation pass produces from `nodeDenseFixed`
under `cfgRnd`. -/
def nodeDenseFixedAfter : Node :=
  setOutputPrec nodeDenseFixed (Precision.fixed 16 6 true (some "AP_RND_CONV") none none)

/-- The affine computation of a BatchNormalization-kind node:
`output = scale * input + bias`, element-wise. -/
def affineApply (scale bias x : Tensor) : Tensor :=
  List.zipWith (· + ·) (List.zipWith (· * ·) scale x) bias

/-- The affine node kinds: `BatchNormalization` and its subclass
`ApplyAlpha`, as the Python `isinstance(…, BatchNormalization)` test sees
them. -/
def affineKind (k : String) : Bool :=
  decide (k ∈ ["BatchNormalization", "ApplyAlpha"])

/-- Modelled from the spec: `node.get_input_node()` of the external graph
service (`hls_model.py` is not under the provided sources) — the node
producing the node's first input tensor, if any. -/
def get_input_node (g : Graph) (n : Node) : Option Node :=
  match n.inputs.head? with
  | none => none
  | some i => g.find? (fun m => decide (i ∈ m.outputs))

/-- `FuseConsecutiveBatchNormalization.match` (lines 157–159). -/
def fcbn_match (g : Graph) (node : Node) : Bool :=
  affineKind node.kind &&
    (match get_input_node g node with
     | some u => affineKind u.kind
     | none => false)

/-- Replace, in a node's input list, every tensor name from `outs` by the
target name `tgt` (when present). -/
def rewireInputs (outs : List String) (tgt : Option String) (m : Node) : Node :=
  { m with inputs := m.inputs.map (fun i => if i ∈ outs then tgt.getD i else i) }

/-- Modelled from the spec: `model.remove_node(node, rewire=True)` of the
external graph service — delete the node and rewire every consumer of its
outputs to the removed node's own input. -/
def remove_node_rewire (g : Graph) (n : Node) : Graph :=
  (g.filter (fun m => decide (m.name ≠ n.name))).map
    (rewireInputs n.outputs n.inputs.head?)

/-- Write back an updated node into the graph, keyed by node name (the
Python passes mutate the node object held by the graph in place). -/
def replaceNode (g : Graph) (nm : String) (n' : Node) : Graph :=
  g.map (fun m => if m.name = nm then n' else m)

/-- `FuseConsecutiveBatchNormalization.transform` (lines 161–177): combine
the scale/bias of the upstream node `bn0` and the matched node into `bn0`,
then remove the matched node with rewiring. -/
def fcbn_transform (g : Graph) (node : Node) : Except String (Graph × Bool) :=
  match get_input_node g node with
  | none => Except.error "AttributeError: NoneType has no weights"
  | some bn0 =>
    match bn0.weights "scale", bn0.weights "bias",
        node.weights "scale", node.weights "bias" with
    | some ws0, some wb0, some ws1, some wb1 =>
      let s2 := List.zipWith (· * ·) ws0.data ws1.data
      let b2 := List.zipWith (· + ·) (List.zipWith (· * ·) ws1.data wb0.data) wb1.data
      let nw := setW (setW bn0.weights "scale" { ws0 with data := s2 }) "bias"
        { wb0 with data := b2 }
      let bn0' := { bn0 with weights := nw }
      Except.ok (remove_node_rewire (replaceNode g bn0.name bn0') node, true)
    | _, _, _, _ => Except.error "KeyError: scale or bias"

/-- `QKerasFactorizeAlpha.match` (lines 89–105). -/
def qkfa_match (node : Node) : Bool :=
  let q_layer := decide (node.kind ∈ ["Dense", "Conv1D", "Conv2D"])
  let has_w_quant := node.attrs.weight_quantizer.isSome
  let has_b_quant := node.attrs.bias_quantizer.isSome
  let has_w_alpha : Bool :=
    match node.attrs.weight_quantizer with
    | some q =>
      match q.alpha with
      | some a => decide (a ≠ 1)
      | none => false
    | none => false
  let has_b_alpha : Bool :=
    match node.attrs.bias_quantizer with
    | some q =>
      match q.alpha with
      | some a => decide (a ≠ 1)
      | none => false
    | none => false
  q_layer && ((has_w_quant && has_w_alpha) || (has_b_quant && has_b_alpha))

/-- Lines 107–133 of the source: re-evaluate the weight quantizer on the
unquantized weights, rescale and re-quantize the weight data, and fix every
recorded quantizer alpha to 1.  The QKeras `from_config` rebuild is external
(third-party) and is passed in as `fromConfig`. -/
def qkfa_updated_node (fromConfig : QConfig → QKQuant) (node : Node)
    (w : WeightEntry) (hq : HQuant) : Node :=
  let quantizer := hq.quantizer_fn
  let qweights := quantizer.call w.data_unquantized
  let scale := quantizer.scaleAfter w.data_unquantized
  let unscale := scale.map (fun a => 1 / a)
  let new_weights := List.zipWith (· * ·) unscale qweights
  let qcfg : QConfig := { quantizer.cfg with alpha := 1 }
  let hq' : HQuant := { hq with quantizer_fn := fromConfig qcfg }
  let w' : WeightEntry := { w with data := hq'.apply new_weights, quantizer := some hq' }
  let wq' := node.attrs.weight_quantizer.map (fun q => { q with alpha := some 1 })
  let bq' := node.attrs.bias_quantizer.map (fun q => { q with alpha := some 1 })
  let attrs' : Attrs := { node.attrs with weight_quantizer := wq', bias_quantizer := bq' }
  let nw := setW node.weights "weight" w'
  { node with weights := nw, attrs := attrs' }

/-- Lines 135–147 of the source: the new ApplyAlpha node carrying the
recomputed scale and same-shape zero bias (the attribute dictionary is
restricted to the modelled keys; the fixed placeholder precision stands for
the hard-coded `scale_t`/`bias_t` strings). -/
def qkfa_alpha_layer (node : Node) (scale : Tensor) : Node :=
  let bias := scale.map (fun _ => (0 : ℚ))
  { kind := "ApplyAlpha",
    name := node.name ++ "_alpha",
    inputs := node.outputs,
    outputs := [node.name ++ "_alpha"],
    shape := node.shape,
    precision := Precision.str "ap_fixed<16,6>",
    weights := setW (setW noW "scale" ⟨scale, scale, none⟩) "bias" ⟨bias, bias, none⟩,
    attrs := { emptyAttrs with
      n_in := node.attrs.n_out,
      n_filt := some (node.attrs.n_filt.getD (-1)),
      reuse_factor := node.attrs.reuse_factor } }

/-- The node-level part of `QKerasFactorizeAlpha.transform` (lines
107–147): returns the updated original node and the new ApplyAlpha node, or
the exception the line-110 attribute access raises when the weight entry
carries no quantizer. -/
def qkfa_transform_node (fromConfig : QConfig → QKQuant) (node : Node) :
    Except String (Node × Node) :=
  match node.weights "weight" with
  | none => Except.error "KeyError: weight"
  | some w =>
    match w.quantizer with
    | none => Except.error "AttributeError: NoneType has no quantizer_fn"
    | some hq =>
      Except.ok (qkfa_updated_node fromConfig node w hq,
        qkfa_alpha_layer node (hq.quantizer_fn.scaleAfter w.data_unquantized))

/-- Modelled from the spec: `model.insert_node` of the external graph
service — append the new node and rewire every consumer of the tensors the
new node reads to consume the new node's output instead. -/
def insert_node (g : Graph) (nn : Node) : Graph :=
  g.map (rewireInputs nn.inputs nn.outputs.head?) ++ [nn]

/-- `QKerasFactorizeAlpha.transform` at graph level (lines 107–149). -/
def qkfa_transform (fromConfig : QConfig → QKQuant) (g : Graph) (node : Node) :
    Except String (Graph × Bool) :=
  match qkfa_transform_node fromConfig node with
  | Except.error e => Except.error e
  | Except.ok (node', alpha_layer) =>
      Except.ok (insert_node (replaceNode g node.name node') alpha_layer, true)

/-- Sample scale/bias weight entries of the upstream affine node. -/
def wScaleUp : WeightEntry := ⟨[2, 3], [2, 3], none⟩

def wBiasUp : WeightEntry := ⟨[1, 1], [1, 1], none⟩

def wScaleDown : WeightEntry := ⟨[3, 4], [3, 4], none⟩

def wBiasDown : WeightEntry := ⟨[0, 1], [0, 1], none⟩

/-- A sample upstream BatchNormalization node. -/
def bnUp : Node :=
  { kind := "BatchNormalization", name := "bn0", inputs := ["x"],
    outputs := ["bn0_out"], shape := [2],
    precision := .fixed 16 6 true none none none,
    weights := setW (setW noW "scale" wScaleUp) "bias" wBiasUp,
    attrs := emptyAttrs }

/-- A sample downstream BatchNormalization node consuming `bnUp`. -/
def bnDown : Node :=
  { kind := "BatchNormalization", name := "bn1", inputs := ["bn0_out"],
    outputs := ["bn1_out"], shape := [2],
    precision := .fixed 16 6 true none none none,
    weights := setW (setW noW "scale" wScaleDown) "bias" wBiasDown,
    attrs := emptyAttrs }

/-- A consumer of the downstream node's output. -/
def denseAfterBN : Node :=
  { kind := "Dense", name := "d2", inputs := ["bn1_out"], outputs := ["d2_out"],
    shape := [2], precision := .fixed 16 6 true none none none,
    weights := noW, attrs := emptyAttrs }

/-- A two-batchnorm sample graph with a downstream consumer. -/
def gBN : Graph := [bnUp, bnDown, denseAfterBN]

/-- A sample QKeras quantizer: identity quantization with scale `[2, 2]` and
configured alpha 3. -/
def qkHQuant : HQuant := ⟨⟨id, fun _ => [2, 2], ⟨3⟩⟩, id⟩

/-- The sample weight entry of the quantized Dense node. -/
def qkWEntry : WeightEntry := ⟨[1, 1], [2, 2], some qkHQuant⟩

/-- A sample quantized Dense node whose weight quantizer has alpha 3. -/
def qkNode : Node :=
  { kind := "Dense", name := "q1", inputs := ["x"], outputs := ["q1_out"],
    shape := [2], precision := .str "ap_fixed<16,6>",
    weights := setW noW "weight" qkWEntry,
    attrs := { emptyAttrs with weight_quantizer := some ⟨some 3⟩ } }

/-- A sample external `from_config` rebuild. -/
def fcSample : QConfig → QKQuant := fun c => ⟨id, fun _ => [1], c⟩

/-- The pair of nodes the factorization pass produces from `qkNode`. -/
def qkRes : Node × Node :=
  ((qkfa_transform_node fcSample qkNode).toOption).getD (qkNode, qkNode)

/-- A Dense node matched only through its bias quantizer's alpha: no weight
quantizer is recorded anywhere on the node. -/
def qkNodeBiasOnly : Node :=
  { kind := "Dense", name := "q2", inputs := ["x"], outputs := ["q2_out"],
    shape := [1], precision := .str "ap_fixed<16,6>",
    weights := setW noW "weight" ⟨[1], [1], none⟩,
    attrs := { emptyAttrs with bias_quantizer := some ⟨some 2⟩ } }

/-- The upstream node after fusion: its scale/bias weight entries hold the
combined data. -/
def fuseInto (bn0 : Node) (ws0 wb0 : WeightEntry) (s2 b2 : Tensor) : Node :=
  let nw := setW (setW bn0.weights "scale" { ws0 with data := s2 }) "bias"
    { wb0 with data := b2 }
  { bn0 with weights := nw }

lemma beginsWith_self_append (n b : List Char) : beginsWith n (n ++ b) = true := by
  induction n with
  | nil => rfl
  | cons a as ih => simp [beginsWith, ih]

lemma containsSub_self_append (n b : List Char) : containsSub (n ++ b) n = true := by
  cases n with
  | nil => cases b <;> simp [containsSub, beginsWith]
  | cons a as =>
    have h := beginsWith_self_append (a :: as) b
    rw [List.cons_append] at h
    simp [containsSub, h]

lemma containsSub_append_left (a h n : List Char) (hc : containsSub h n = true) :
    containsSub (a ++ h) n = true := by
  induction a with
  | nil => simpa using hc
  | cons c t ih => simp [containsSub, ih]

lemma containsSub_infix (a n b : List Char) : containsSub (a ++ n ++ b) n = true := by
  rw [List.append_assoc]
  exact containsSub_append_left _ _ _ (containsSub_self_append n b)

lemma containsSub_middle (pre mid post n : List Char)
    (h : ∃ a b, mid = a ++ n ++ b) : containsSub (pre ++ mid ++ post) n = true := by
  obtain ⟨a, b, rfl⟩ := h
  have : pre ++ (a ++ n ++ b) ++ post = (pre ++ a) ++ n ++ (b ++ post) := by
    simp [List.append_assoc]
  rw [this]
  exact containsSub_infix _ _ _

lemma modeSuffix_rounding_split (r : String) (m : Option String) (bb : Option Nat) :
    ∃ a b, modeSuffix (some r) m bb = a ++ r.data ++ b := by
  refine ⟨[','],
    (match m with | some m' => ',' :: m'.data | none => []) ++
      (match bb with | some x => ',' :: Nat.toDigits 10 x | none => []), ?_⟩
  simp [modeSuffix, List.append_assoc]

lemma modeSuffix_saturation_split (r : Option String) (m : String) (bb : Option Nat) :
    ∃ a b, modeSuffix r (some m) bb = a ++ m.data ++ b := by
  refine ⟨(match r with | some r' => ',' :: r'.data | none => []) ++ [','],
    (match bb with | some x => ',' :: Nat.toDigits 10 x | none => []), ?_⟩
  cases r <;> cases bb <;> simp [modeSuffix, List.append_assoc]

lemma replaceGt_eq_of_not_mem (mode l : List Char) (h : ('>') ∉ l) :
    replaceGt mode l = l := by
  induction l with
  | nil => rfl
  | cons c t ih =>
    have hc : ¬ (c = '>') := by
      intro e
      exact h (e ▸ List.mem_cons_self c t)
    have ht : ('>') ∉ t := fun m => h (List.mem_cons_of_mem _ m)
    simp [replaceGt, hc, ih ht]

lemma replaceGt_mem_split (mode l : List Char) (h : ('>') ∈ l) :
    ∃ a b, replaceGt mode l = a ++ mode ++ b := by
  induction l with
  | nil => cases h
  | cons c t ih =>
    by_cases hc : c = '>'
    · exact ⟨[], replaceGt mode t, by simp [replaceGt, hc]⟩
    · have ht : ('>') ∈ t := by
        cases List.mem_cons.mp h with
        | inl e => exact absurd e.symm hc
        | inr m => exact m
      obtain ⟨a, b, hab⟩ := ih ht
      exact ⟨c :: a, b, by simp [replaceGt, hc, hab]⟩

lemma orsm_match_eq_false_of_contains (cfg : ORSMConfig) (node : Node)
    (hr : ∀ r, cfg.rounding_mode = some r →
      pycontains (strPrecData node.precision) r = true)
    (hs : ∀ m, cfg.saturation_mode = some m →
      pycontains (strPrecData node.precision) m = true) :
    orsm_match cfg node = false := by
  unfold orsm_match
  cases hrc : cfg.rounding_mode with
  | none =>
    cases hsc : cfg.saturation_mode with
    | none => simp
    | some m => simp [hs m hsc]
  | some r =>
    cases hsc : cfg.saturation_mode with
    | none => simp [hr r hrc]
    | some m => simp [hr r hrc, hs m hsc]

/-- C7: `OutputRoundingSaturationMode.match(node)` is true iff the node's
class name or name is in the configured layer list and at least one
configured mode (rounding or saturation) is not already a substring of the
output precision's string form; with an empty layer list no node matches. -/
theorem orsm_match_characterization (cfg : ORSMConfig) (node : Node) :
    (orsm_match cfg node = true ↔
      ((node.kind ∈ cfg.layers ∨ node.name ∈ cfg.layers) ∧
        ((∃ r, cfg.rounding_mode = some r ∧
            pycontains (strPrecData node.precision) r = false) ∨
         (∃ m, cfg.saturation_mode = some m ∧
            pycontains (strPrecData node.precision) m = false)))) ∧
    (cfg.layers = [] → orsm_match cfg node = false) := by
  constructor
  · unfold orsm_match
    cases hrc : cfg.rounding_mode <;> cases hsc : cfg.saturation_mode <;> simp
  · intro hl
    unfold orsm_match
    cases hrc : cfg.rounding_mode <;> cases hsc : cfg.saturation_mode <;> simp [hl]

/-- C7 witness: the characterization instantiated at a concrete
configuration and node. -/
theorem orsm_match_characterization_witness :
    (orsm_match cfgRnd nodeDenseFixed = true ↔
      ((nodeDenseFixed.kind ∈ cfgRnd.layers ∨ nodeDenseFixed.name ∈ cfgRnd.layers) ∧
        ((∃ r, cfgRnd.rounding_mode = some r ∧
            pycontains (strPrecData nodeDenseFixed.precision) r = false) ∨
         (∃ m, cfgRnd.saturation_mode = some m ∧
            pycontains (strPrecData nodeDenseFixed.precision) m = false)))) ∧
    (cfgRnd.layers = [] → orsm_match cfgRnd nodeDenseFixed = false) :=
  orsm_match_characterization cfgRnd nodeDenseFixed

/-- C3: on a node whose output precision is a structured integer type,
`OutputRoundingSaturationMode.transform` raises a `NameError` instead of
replacing the type — line 41 binds `newprecision`, but line 46 reads the
never-assigned local `newtype`. -/
theorem orsm_transform_integer_name_error (cfg : ORSMConfig) (node : Node)
    (w : Nat) (sgn : Bool) (r m : Option String) (b : Option Nat) :
    orsm_transform cfg { node with precision := Precision.int w sgn r m b } =
      Except.error "NameError: newtype is not defined" := rfl

/-- C8 counterexample: on a node whose output type is a string with no
closing bracket (neither structured nor a recognized bracketed encoding),
`transform` completes without error and leaves the node unchanged — a
silent skip, not a loud failure. -/
theorem orsm_transform_silent_skip_counterexample :
    nodeStrFloat.precision = Precision.str "float" ∧
    ('>' ∉ "float".data) ∧
    orsm_transform cfgRnd nodeStrFloat = Except.ok (nodeStrFloat, false) :=
  ⟨rfl, by decide, rfl⟩

/-- C8 (amended): on a node whose output type is a string without a closing
bracket, `transform` silently applies the string-modification path, which
leaves the precision string unchanged, and returns normally (no error). -/
theorem orsm_transform_unbracketed_string_silent (cfg : ORSMConfig) (node : Node)
    (s : String) (hp : node.precision = Precision.str s) (hgt : ('>') ∉ s.data) :
    orsm_transform cfg node =
      Except.ok (setOutputPrec node (Precision.str s), false) := by
  obtain ⟨sd⟩ := s
  have h1 : precision_string_modify cfg ⟨sd⟩ = ⟨sd⟩ := by
    have h2 : replaceGt (modeString cfg) sd = sd := replaceGt_eq_of_not_mem _ _ hgt
    simp [precision_string_modify, h2]
  simp [orsm_transform, hp, h1]

/-- C8 amended witness at a concrete node and configuration. -/
theorem orsm_transform_unbracketed_string_silent_witness :
    orsm_transform cfgRnd nodeStrFloat =
      Except.ok (setOutputPrec nodeStrFloat (Precision.str "float"), false) :=
  orsm_transform_unbracketed_string_silent cfgRnd nodeStrFloat "float" rfl (by decide)

/-- C4 counterexample: a matching node whose precision is a bracketless
string is transformed to itself, so `match` still returns true afterwards —
the pass is not idempotent on such nodes. -/
theorem orsm_idempotence_counterexample :
    orsm_match cfgRnd nodeStrFloat = true ∧
    orsm_transform cfgRnd nodeStrFloat = Except.ok (nodeStrFloat, false) ∧
    orsm_match cfgRnd nodeStrFloat = true :=
  ⟨rfl, rfl, rfl⟩

/-- C4 (amended): if `match` is true and `transform` completes on a node
whose output precision is a structured fixed-point type or a string
containing a closing bracket, a subsequent `match` on the transformed node
under the same configuration returns false. -/
theorem orsm_match_false_after_transform (cfg : ORSMConfig) (node node' : Node)
    (b : Bool) (hm : orsm_match cfg node = true)
    (ht : orsm_transform cfg node = Except.ok (node', b))
    (hstr : ∀ s, node.precision = Precision.str s → ('>') ∈ s.data) :
    orsm_match cfg node' = false := by
  cases hp : node.precision with
  | int w sgn r m bb =>
    rw [orsm_transform, hp] at ht
    cases ht
  | fixed w i sgn r m bb =>
    rw [orsm_transform, hp] at ht
    cases ht
    apply orsm_match_eq_false_of_contains
    · intro r' hr'
      show containsSub (strPrecData (setOutputPrec node _).precision) _ = true
      simp only [setOutputPrec]
      rw [hr']
      exact containsSub_middle _ _ _ _ (modeSuffix_rounding_split _ _ _)
    · intro m' hm'
      show containsSub (strPrecData (setOutputPrec node _).precision) _ = true
      simp only [setOutputPrec]
      rw [hm']
      exact containsSub_middle _ _ _ _ (modeSuffix_saturation_split _ _ _)
  | str s =>
    rw [orsm_transform, hp] at ht
    cases ht
    have hmem : ('>') ∈ s.data := hstr s hp
    obtain ⟨a, b', hab⟩ := replaceGt_mem_split (modeString cfg) s.data hmem
    have hdata : strPrecData (setOutputPrec node
        (Precision.str (precision_string_modify cfg s))).precision
        = a ++ modeString cfg ++ b' := by
      simp [setOutputPrec, strPrecData, precision_string_modify, hab]
    apply orsm_match_eq_false_of_contains
    · intro r' hr'
      show containsSub _ _ = true
      rw [hdata]
      apply containsSub_middle
      obtain ⟨x, y, hxy⟩ := modeSuffix_rounding_split r' cfg.saturation_mode cfg.saturation_bits
      exact ⟨x, y ++ ['>'], by simp [modeString, hr', hxy, List.append_assoc]⟩
    · intro m' hm'
      show containsSub _ _ = true
      rw [hdata]
      apply containsSub_middle
      obtain ⟨x, y, hxy⟩ := modeSuffix_saturation_split cfg.rounding_mode m' cfg.saturation_bits
      exact ⟨x, y ++ ['>'], by simp [modeString, hm', hxy, List.append_assoc]⟩

/-- C4 amended witness: a concrete fixed-point Dense node that matches, is
transformed, and no longer matches. -/
theorem orsm_match_false_after_transform_witness :
    orsm_match cfgRnd nodeDenseFixedAfter = false :=
  orsm_match_false_after_transform cfgRnd nodeDenseFixed nodeDenseFixedAfter false
    rfl rfl (fun _ h => Precision.noConfusion h)

lemma countP_not_add_countP {α : Type} (l : List α) (q : α → Bool) :
    l.countP (fun m => !(q m)) + l.countP q = l.length := by
  induction l with
  | nil => simp
  | cons a t ih => by_cases h : q a <;> simp [List.countP_cons, h] <;> omega

lemma zip_fuse (s0 b0 s1 b1 x : List ℚ) :
    List.zipWith (· + ·) (List.zipWith (· * ·) (List.zipWith (· * ·) s0 s1) x)
      (List.zipWith (· + ·) (List.zipWith (· * ·) s1 b0) b1)
    = List.zipWith (· + ·) (List.zipWith (· * ·) s1
        (List.zipWith (· + ·) (List.zipWith (· * ·) s0 x) b0)) b1 := by
  induction s0 generalizing b0 s1 b1 x with
  | nil => cases b0 <;> cases s1 <;> cases b1 <;> cases x <;> simp
  | cons a t ih =>
    cases b0 <;> cases s1 <;> cases b1 <;> cases x <;> simp [ih] <;> ring

lemma affineApply_fuse (s0 b0 s1 b1 x : List ℚ) :
    affineApply (List.zipWith (· * ·) s0 s1)
      (List.zipWith (· + ·) (List.zipWith (· * ·) s1 b0) b1) x
    = affineApply s1 b1 (affineApply s0 b0 x) := by
  simp only [affineApply]
  exact zip_fuse s0 b0 s1 b1 x

lemma fcbn_transform_eq (g : Graph) (node bn0 : Node)
    (ws0 wb0 ws1 wb1 : WeightEntry)
    (hin : get_input_node g node = some bn0)
    (h0s : bn0.weights "scale" = some ws0) (h0b : bn0.weights "bias" = some wb0)
    (h1s : node.weights "scale" = some ws1) (h1b : node.weights "bias" = some wb1) :
    fcbn_transform g node = Except.ok (remove_node_rewire
      (replaceNode g bn0.name (fuseInto bn0 ws0 wb0
        (List.zipWith (· * ·) ws0.data ws1.data)
        (List.zipWith (· + ·) (List.zipWith (· * ·) ws1.data wb0.data) wb1.data)))
      node, true) := by
  simp only [fcbn_transform, hin, h0s, h0b, h1s, h1b]
  rfl

lemma mem_of_get_input_node (g : Graph) (n u : Node)
    (hin : get_input_node g n = some u) : u ∈ g := by
  unfold get_input_node at hin
  cases hh : n.inputs.head? with
  | none => rw [hh] at hin; cases hin
  | some i => rw [hh] at hin; exact List.mem_of_find?_eq_some hin

/-- C1: fusing two consecutive affine nodes overwrites the upstream node's
weights with `s2 = s0 * s1` and `b2 = s1 * b0 + b1`, element-wise and in
exactly that order of operations, and for every input `x` the fused affine
map agrees exactly with the composed one in the algebra used. -/
theorem fcbn_transform_fuses_affine (g : Graph) (node bn0 : Node)
    (ws0 wb0 ws1 wb1 : WeightEntry)
    (hin : get_input_node g node = some bn0)
    (hname : bn0.name ≠ node.name)
    (h0s : bn0.weights "scale" = some ws0) (h0b : bn0.weights "bias" = some wb0)
    (h1s : node.weights "scale" = some ws1) (h1b : node.weights "bias" = some wb1) :
    ∃ g', fcbn_transform g node = Except.ok (g', true) ∧
      (∃ m ∈ g', m.name = bn0.name ∧
        (m.weights "scale").map WeightEntry.data =
          some (List.zipWith (· * ·) ws0.data ws1.data) ∧
        (m.weights "bias").map WeightEntry.data =
          some (List.zipWith (· + ·) (List.zipWith (· * ·) ws1.data wb0.data) wb1.data)) ∧
      ∀ x : Tensor,
        affineApply (List.zipWith (· * ·) ws0.data ws1.data)
          (List.zipWith (· + ·) (List.zipWith (· * ·) ws1.data wb0.data) wb1.data) x
        = affineApply ws1.data wb1.data (affineApply ws0.data wb0.data x) := by
  have hmem : bn0 ∈ g := mem_of_get_input_node g node bn0 hin
  set s2 := List.zipWith (· * ·) ws0.data ws1.data with hs2
  set b2 := List.zipWith (· + ·) (List.zipWith (· * ·) ws1.data wb0.data) wb1.data with hb2
  set bn0x := fuseInto bn0 ws0 wb0 s2 b2 with hbn0x
  refine ⟨_, fcbn_transform_eq g node bn0 ws0 wb0 ws1 wb1 hin h0s h0b h1s h1b, ?_, ?_⟩
  · have h1 : bn0x ∈ replaceNode g bn0.name bn0x := by
      have h0 := List.mem_map_of_mem (fun m => if m.name = bn0.name then bn0x else m) hmem
      simpa [replaceNode] using h0
    have h2 : bn0x ∈ (replaceNode g bn0.name bn0x).filter
        (fun m => decide (m.name ≠ node.name)) := by
      refine List.mem_filter.mpr ⟨h1, ?_⟩
      simp [hbn0x, fuseInto, hname]
    refine ⟨rewireInputs node.outputs node.inputs.head? bn0x, ?_, rfl, ?_, ?_⟩
    · simp only [remove_node_rewire]
      exact List.mem_map_of_mem _ h2
    · simp [rewireInputs, hbn0x, fuseInto, setW]
    · simp [rewireInputs, hbn0x, fuseInto, setW]
  · exact fun x => affineApply_fuse ws0.data wb0.data ws1.data wb1.data x

/-- C1 witness: fusing the sample batchnorm pair. -/
theorem fcbn_transform_fuses_affine_witness :
    ∃ g', fcbn_transform gBN bnDown = Except.ok (g', true) ∧
      (∃ m ∈ g', m.name = bnUp.name ∧
        (m.weights "scale").map WeightEntry.data =
          some (List.zipWith (· * ·) wScaleUp.data wScaleDown.data) ∧
        (m.weights "bias").map WeightEntry.data =
          some (List.zipWith (· + ·)
            (List.zipWith (· * ·) wScaleDown.data wBiasUp.data) wBiasDown.data)) ∧
      ∀ x : Tensor,
        affineApply (List.zipWith (· * ·) wScaleUp.data wScaleDown.data)
          (List.zipWith (· + ·)
            (List.zipWith (· * ·) wScaleDown.data wBiasUp.data) wBiasDown.data) x
        = affineApply wScaleDown.data wBiasDown.data
            (affineApply wScaleUp.data wBiasUp.data x) :=
  fcbn_transform_fuses_affine gBN bnDown bnUp wScaleUp wBiasUp wScaleDown wBiasDown
    rfl (by decide) rfl rfl rfl rfl

lemma remove_node_rewire_length (g : Graph) (n : Node)
    (hcount : g.countP (fun m => decide (m.name = n.name)) = 1) :
    (remove_node_rewire g n).length + 1 = g.length := by
  unfold remove_node_rewire
  rw [List.length_map]
  have e1 : g.countP (fun m => decide (m.name ≠ n.name))
      = (g.filter (fun m => decide (m.name ≠ n.name))).length :=
    List.countP_eq_length_filter (fun m => decide (m.name ≠ n.name)) g
  have e2 : g.countP (fun m => decide (m.name ≠ n.name))
      = g.countP (fun m => !(decide (m.name = n.name))) :=
    List.countP_congr (fun m _ => by simp)
  have e4 := countP_not_add_countP g (fun m => decide (m.name = n.name))
  omega

lemma replaceNode_countP (g : Graph) (nm : String) (n' : Node) (tgt : String)
    (hpres : n'.name = nm) :
    (replaceNode g nm n').countP (fun m => decide (m.name = tgt))
      = g.countP (fun m => decide (m.name = tgt)) := by
  unfold replaceNode
  rw [List.countP_map]
  refine List.countP_congr (fun m _ => ?_)
  by_cases hmb : m.name = nm
  · simp [Function.comp, hmb, hpres]
  · simp [Function.comp, hmb]

lemma remove_after_replace_length (g : Graph) (nm : String) (n' : Node) (node : Node)
    (hpres : n'.name = nm)
    (hcount : g.countP (fun m => decide (m.name = node.name)) = 1) :
    (remove_node_rewire (replaceNode g nm n') node).length + 1 = g.length := by
  have hc1 : (replaceNode g nm n').countP (fun m => decide (m.name = node.name)) = 1 :=
    (replaceNode_countP g nm n' node.name hpres).trans hcount
  have h2 := remove_node_rewire_length (replaceNode g nm n') node hc1
  have h3 : (replaceNode g nm n').length = g.length := by simp [replaceNode]
  omega

lemma mem_remove_after_replace (g : Graph) (nm : String) (n' : Node) (node : Node)
    (m : Node) (hmg : m ∈ g) (hmb : m.name ≠ nm) (hmn : m.name ≠ node.name) :
    rewireInputs node.outputs node.inputs.head? m
      ∈ remove_node_rewire (replaceNode g nm n') node := by
  have f1 : m ∈ replaceNode g nm n' := by
    have h0 := List.mem_map_of_mem (fun m => if m.name = nm then n' else m) hmg
    simpa [replaceNode, hmb] using h0
  have f2 : m ∈ (replaceNode g nm n').filter (fun m => decide (m.name ≠ node.name)) :=
    List.mem_filter.mpr ⟨f1, by simp [hmn]⟩
  exact List.mem_map_of_mem _ f2

/-- C9: on a fusion match, `transform` removes exactly the matched
downstream node: the node count drops by one, the rewire target is an output
of the upstream node, and every node other than the upstream node and the
removed node survives unchanged except that inputs read from the removed
node's outputs now read the upstream node's output; the pass returns true. -/
theorem fcbn_transform_shrinks_graph (g : Graph) (node bn0 : Node) (h : String)
    (ws0 wb0 ws1 wb1 : WeightEntry)
    (hm : fcbn_match g node = true)
    (hin : get_input_node g node = some bn0)
    (hhead : node.inputs.head? = some h)
    (hname : bn0.name ≠ node.name)
    (hcount : g.countP (fun m => decide (m.name = node.name)) = 1)
    (h0s : bn0.weights "scale" = some ws0) (h0b : bn0.weights "bias" = some wb0)
    (h1s : node.weights "scale" = some ws1) (h1b : node.weights "bias" = some wb1) :
    ∃ g', fcbn_transform g node = Except.ok (g', true) ∧
      g'.length + 1 = g.length ∧
      h ∈ bn0.outputs ∧
      ∀ m ∈ g, m.name ≠ node.name → m.name ≠ bn0.name →
        rewireInputs node.outputs (some h) m ∈ g' := by
  refine ⟨_, fcbn_transform_eq g node bn0 ws0 wb0 ws1 wb1 hin h0s h0b h1s h1b, ?_, ?_, ?_⟩
  · exact remove_after_replace_length g bn0.name _ node rfl hcount
  · have hin' : g.find? (fun m => decide (h ∈ m.outputs)) = some bn0 := by
      unfold get_input_node at hin
      rw [hhead] at hin
      exact hin
    have hp := List.find?_some hin'
    simpa using hp
  · intro m hmg hmn hmb
    rw [← hhead]
    exact mem_remove_after_replace g bn0.name _ node m hmg hmb hmn

/-- C9 witness: fusing the sample batchnorm pair in a three-node graph. -/
theorem fcbn_transform_shrinks_graph_witness :
    ∃ g', fcbn_transform gBN bnDown = Except.ok (g', true) ∧
      g'.length + 1 = gBN.length ∧
      "bn0_out" ∈ bnUp.outputs ∧
      ∀ m ∈ gBN, m.name ≠ bnDown.name → m.name ≠ bnUp.name →
        rewireInputs bnDown.outputs (some "bn0_out") m ∈ g' :=
  fcbn_transform_shrinks_graph gBN bnDown bnUp "bn0_out" wScaleUp wBiasUp wScaleDown
    wBiasDown rfl rfl rfl (by decide) rfl rfl rfl rfl rfl

/-- C6: `QKerasFactorizeAlpha.match(node)` is true iff the node is a
Dense/Conv1D/Conv2D layer and a present weight or bias quantizer attribute
carries an alpha different from 1; a present quantizer without an alpha
attribute contributes no match. -/
theorem qkfa_match_characterization (node : Node) :
    qkfa_match node = true ↔
      (node.kind ∈ ["Dense", "Conv1D", "Conv2D"] ∧
        ((∃ q a, node.attrs.weight_quantizer = some q ∧ q.alpha = some a ∧ a ≠ 1) ∨
         (∃ q a, node.attrs.bias_quantizer = some q ∧ q.alpha = some a ∧ a ≠ 1))) := by
  unfold qkfa_match
  cases hw : node.attrs.weight_quantizer with
  | none =>
    cases hb : node.attrs.bias_quantizer with
    | none => simp
    | some qb => cases hqb : qb.alpha <;> simp [hqb]
  | some qw =>
    cases hb : node.attrs.bias_quantizer with
    | none => cases hqw : qw.alpha <;> simp [hqw]
    | some qb => cases hqw : qw.alpha <;> cases hqb : qb.alpha <;> simp [hqw, hqb]

lemma qkfa_transform_node_eq (fc : QConfig → QKQuant) (node : Node)
    (w : WeightEntry) (hqt : HQuant)
    (hw : node.weights "weight" = some w) (hq : w.quantizer = some hqt) :
    qkfa_transform_node fc node = Except.ok (qkfa_updated_node fc node w hqt,
      qkfa_alpha_layer node (hqt.quantizer_fn.scaleAfter w.data_unquantized)) := by
  simp only [qkfa_transform_node, hw, hq]

lemma qkfa_transform_eq (fc : QConfig → QKQuant) (g : Graph) (node : Node)
    (w : WeightEntry) (hqt : HQuant)
    (hw : node.weights "weight" = some w) (hq : w.quantizer = some hqt) :
    qkfa_transform fc g node = Except.ok (insert_node
      (replaceNode g node.name (qkfa_updated_node fc node w hqt))
      (qkfa_alpha_layer node (hqt.quantizer_fn.scaleAfter w.data_unquantized)), true) := by
  simp only [qkfa_transform, qkfa_transform_node_eq fc node w hqt hw hq]

/-- C6 witness: the characterization instantiated at the sample node. -/
theorem qkfa_match_characterization_witness :
    qkfa_match qkNode = true ↔
      (qkNode.kind ∈ ["Dense", "Conv1D", "Conv2D"] ∧
        ((∃ q a, qkNode.attrs.weight_quantizer = some q ∧ q.alpha = some a ∧ a ≠ 1) ∨
         (∃ q a, qkNode.attrs.bias_quantizer = some q ∧ q.alpha = some a ∧ a ≠ 1))) :=
  qkfa_match_characterization qkNode

/-- C2: after a completed factorization, every recorded weight/bias
quantizer attribute has alpha 1, and `match` no longer fires on the
transformed node. -/
theorem qkfa_transform_alpha_elimination (fc : QConfig → QKQuant)
    (node node' nn : Node)
    (hm : qkfa_match node = true)
    (ht : qkfa_transform_node fc node = Except.ok (node', nn)) :
    (∀ q, node'.attrs.weight_quantizer = some q → q.alpha = some 1) ∧
    (∀ q, node'.attrs.bias_quantizer = some q → q.alpha = some 1) ∧
    qkfa_match node' = false := by
  cases hw : node.weights "weight" with
  | none =>
    simp only [qkfa_transform_node, hw] at ht
    cases ht
  | some w =>
    cases hq : w.quantizer with
    | none =>
      simp only [qkfa_transform_node, hw, hq] at ht
      cases ht
    | some hqv =>
      rw [qkfa_transform_node_eq fc node w hqv hw hq] at ht
      simp only [Except.ok.injEq, Prod.mk.injEq] at ht
      obtain ⟨h1, h2⟩ := ht
      subst h1
      refine ⟨?_, ?_, ?_⟩
      · intro q hqe
        cases hwq : node.attrs.weight_quantizer with
        | none => simp [qkfa_updated_node, hwq] at hqe
        | some q0 =>
          simp [qkfa_updated_node, hwq] at hqe
          rw [← hqe]
      · intro q hqe
        cases hbq : node.attrs.bias_quantizer with
        | none => simp [qkfa_updated_node, hbq] at hqe
        | some q0 =>
          simp [qkfa_updated_node, hbq] at hqe
          rw [← hqe]
      · unfold qkfa_match qkfa_updated_node
        cases hwq : node.attrs.weight_quantizer <;>
          cases hbq : node.attrs.bias_quantizer <;> simp [hwq, hbq]

/-- C2 witness: the transformed sample node no longer matches. -/
theorem qkfa_transform_alpha_elimination_witness :
    qkfa_match qkRes.1 = false :=
  (qkfa_transform_alpha_elimination fcSample qkNode qkRes.1 qkRes.2 rfl rfl).2.2

/-- C5: the factorization inserts into the graph a new node of kind
ApplyAlpha named after the original node with the `_alpha` suffix, reading
the original node's outputs, with the original output shape, carrying the
recomputed scale tensor as its scale weight and same-shape zeros as its
bias weight; the pass reports a topology change. -/
theorem qkfa_transform_inserts_apply_alpha (fc : QConfig → QKQuant) (g : Graph)
    (node : Node) (w : WeightEntry) (hqt : HQuant)
    (hw : node.weights "weight" = some w) (hq : w.quantizer = some hqt) :
    ∃ g', qkfa_transform fc g node = Except.ok (g', true) ∧
      ∃ nn ∈ g', nn.kind = "ApplyAlpha" ∧ nn.name = node.name ++ "_alpha" ∧
        nn.inputs = node.outputs ∧ nn.shape = node.shape ∧
        (nn.weights "scale").map WeightEntry.data =
          some (hqt.quantizer_fn.scaleAfter w.data_unquantized) ∧
        (nn.weights "bias").map WeightEntry.data =
          some ((hqt.quantizer_fn.scaleAfter w.data_unquantized).map
            (fun _ => (0 : ℚ))) := by
  refine ⟨_, qkfa_transform_eq fc g node w hqt hw hq, ?_⟩
  refine ⟨qkfa_alpha_layer node (hqt.quantizer_fn.scaleAfter w.data_unquantized),
    List.mem_append_right _ (List.mem_singleton_self _),
    rfl, rfl, rfl, rfl, ?_, ?_⟩
  · simp [qkfa_alpha_layer, setW]
  · simp [qkfa_alpha_layer, setW]

/-- C5 witness: factorizing the sample quantized Dense node. -/
theorem qkfa_transform_inserts_apply_alpha_witness :
    ∃ g', qkfa_transform fcSample [qkNode] qkNode = Except.ok (g', true) ∧
      ∃ nn ∈ g', nn.kind = "ApplyAlpha" ∧ nn.name = qkNode.name ++ "_alpha" ∧
        nn.inputs = qkNode.outputs ∧ nn.shape = qkNode.shape ∧
        (nn.weights "scale").map WeightEntry.data =
          some (qkHQuant.quantizer_fn.scaleAfter qkWEntry.data_unquantized) ∧
        (nn.weights "bias").map WeightEntry.data =
          some ((qkHQuant.quantizer_fn.scaleAfter qkWEntry.data_unquantized).map
            (fun _ => (0 : ℚ))) :=
  qkfa_transform_inserts_apply_alpha fcSample [qkNode] qkNode qkWEntry qkHQuant rfl rfl

/-- C10: the transform dereferences the weight entry's quantizer
unconditionally (line 110), so on a node matched only through its bias
quantizer's alpha — with no weight quantizer anywhere — `match` is true yet
`transform` fails instead of performing a bias-only factorization. -/
theorem qkfa_transform_bias_only_fails (fc : QConfig → QKQuant)
    (node : Node) (q : AQuant) (a : ℚ)
    (hk : node.kind = "Dense")
    (hwq : node.attrs.weight_quantizer = none)
    (hbq : node.attrs.bias_quantizer = some q)
    (hqa : q.alpha = some a) (ha : a ≠ 1)
    (hwe : ∀ w, node.weights "weight" = some w → w.quantizer = none) :
    qkfa_match node = true ∧
      ∃ e, qkfa_transform_node fc node = Except.error e := by
  constructor
  · unfold qkfa_match
    simp [hk, hwq, hbq, hqa, ha]
  · cases hw : node.weights "weight" with
    | none => exact ⟨"KeyError: weight", by simp only [qkfa_transform_node, hw]⟩
    | some w =>
      have hqn := hwe w hw
      exact ⟨"AttributeError: NoneType has no quantizer_fn",
        by simp only [qkfa_transform_node, hw, hqn]⟩

/-- C10 witness: a concrete bias-alpha-only Dense node. -/
theorem qkfa_transform_bias_only_fails_witness :
    qkfa_match qkNodeBiasOnly = true ∧
      ∃ e, qkfa_transform_node fcSample qkNodeBiasOnly = Except.error e :=
  qkfa_transform_bias_only_fails fcSample qkNodeBiasOnly ⟨some 2⟩ 2 rfl rfl rfl rfl
    (by norm_num)
    (fun w hw => by
      simp [qkNodeBiasOnly, setW] at hw
      rw [← hw])
